import Mathlib

/-!
Verification of the membership/invitation authorization and lifecycle model of
the bug-blazer kanban tracker. The definitions below are a shallow embedding of
the repository's SQL migrations (row-level-security policies, triggers and the
`accept_invitation` stored procedure) and of the TypeScript handlers in
`TeamManagement.tsx` and the invitation acceptance page. Timestamps are
modelled as natural numbers (seconds), row ids and tokens as naturals, emails
as strings. Database tables are lists of rows; each client operation is a pure
function from a database state (plus the acting identity and fresh ids) to a
result and a new state.
-/

namespace BugBlazer

abbrev UserId := Nat
abbrev ProjectId := Nat
abbrev RowId := Nat
abbrev Token := Nat
abbrev Time := Nat
abbrev Email := String

/-- Enum `member_role` from the migration: 'owner' | 'contributor'. -/
inductive MemberRole
  | owner
  | contributor
deriving DecidableEq

/-- Row of `public.projects` (fields relevant to the claims). -/
structure ProjectRow where
  id : ProjectId
  name : String
  owner_id : UserId
deriving DecidableEq

/-- Row of `public.project_members`; `joined_at` is nullable, and the table
carries UNIQUE(project_id, user_id). -/
structure MemberRow where
  id : RowId
  project_id : ProjectId
  user_id : UserId
  role : MemberRole
  invited_by : UserId
  joined_at : Option Time
deriving DecidableEq

/-- Row of `public.project_invitations`; `accepted_at` is nullable,
`expires_at` defaults to creation time + 7 days, and the table carries
UNIQUE(project_id, email). -/
structure InvitationRow where
  id : RowId
  project_id : ProjectId
  email : Email
  role : MemberRole
  invited_by : UserId
  token : Token
  expires_at : Time
  accepted_at : Option Time
deriving DecidableEq

/-- The durable store: the three tables the claims are about. -/
structure DBState where
  projects : List ProjectRow
  project_members : List MemberRow
  project_invitations : List InvitationRow
deriving DecidableEq

/-- Security-definer predicate `is_project_owner(project_id)` (final form in
the migrations): the acting user is the project's `owner_id`. -/
def is_project_owner (st : DBState) (uid : UserId) (pid : ProjectId) : Bool :=
  st.projects.any fun p => p.id == pid && p.owner_id == uid

/-- Security-definer predicate `is_project_member(project_id)` (final form in
the migrations): a `project_members` row for the acting user exists with
`joined_at IS NOT NULL`. -/
def is_project_member (st : DBState) (uid : UserId) (pid : ProjectId) : Bool :=
  st.project_members.any fun m =>
    m.project_id == pid && m.user_id == uid && m.joined_at.isSome

/-- Effective row-level permission for INSERT/UPDATE/DELETE on
`project_invitations` after the final policy migration: that migration creates
"Project members can create/update/delete invitations" policies with
`is_project_owner(project_id) OR is_project_member(project_id)`, and the
earlier owner-only FOR ALL policy it leaves in place is subsumed by the
disjunction (permissive policies are OR-combined). -/
def canManageInvitations (st : DBState) (uid : UserId) (pid : ProjectId) : Bool :=
  is_project_owner st uid pid || is_project_member st uid pid

/-- Effective SELECT visibility of an invitation row: the owner-or-member view
policy OR-combined with "Users can view invitations sent to them"
(`email = (SELECT email FROM auth.users WHERE id = auth.uid())`). -/
def canViewInvitation (st : DBState) (uid : UserId) (uemail : Email)
    (i : InvitationRow) : Bool :=
  is_project_owner st uid i.project_id || is_project_member st uid i.project_id ||
    i.email == uemail

/-- Result of the `accept_invitation` RPC: the JSON object is either
`{success:true, project_id}` or `{success:false, error}` with one of the two
error strings of the stored procedure. -/
inductive AcceptResult
  | success (project_id : ProjectId)
  | invalidOrExpired
  | emailMismatch
deriving DecidableEq

/-- The lookup inside `accept_invitation`:
`SELECT * FROM project_invitations WHERE token = $1 AND expires_at > now()
AND accepted_at IS NULL` (first matching row). -/
def findPendingByToken (st : DBState) (tok : Token) (now : Time) :
    Option InvitationRow :=
  st.project_invitations.find? fun i =>
    i.token == tok && decide (now < i.expires_at) && i.accepted_at.isNone

/-- The membership upsert inside `accept_invitation`:
`INSERT ... ON CONFLICT (project_id, user_id) DO UPDATE SET joined_at = now(),
role = invitation_record.role`. -/
def upsertMember (members : List MemberRow) (fresh : RowId) (pid : ProjectId)
    (uid : UserId) (role : MemberRole) (inviter : UserId) (now : Time) :
    List MemberRow :=
  if members.any fun m => m.project_id == pid && m.user_id == uid then
    members.map fun m =>
      if m.project_id == pid && m.user_id == uid then
        { m with role := role, joined_at := some now }
      else m
  else
    members ++ [⟨fresh, pid, uid, role, inviter, some now⟩]

/-- The `accept_invitation(invitation_token)` stored procedure (security
definer, so row-level policies do not apply inside it). `uid`/`uemail` are the
invoking identity (`auth.uid()` and its `auth.users.email`); `fresh` is the
row id a fresh membership insert would get. Steps, in source order: look up a
pending unexpired row by token; compare the identity's email to the
invitation's email with plain inequality; upsert the membership; mark the
invitation accepted. -/
def accept_invitation (st : DBState) (uid : UserId) (uemail : Email)
    (now : Time) (fresh : RowId) (tok : Token) : AcceptResult × DBState :=
  match findPendingByToken st tok now with
  | none => (.invalidOrExpired, st)
  | some inv =>
    if uemail != inv.email then (.emailMismatch, st)
    else
      (.success inv.project_id,
       { st with
         project_members :=
           upsertMember st.project_members fresh inv.project_id uid inv.role
             inv.invited_by now,
         project_invitations := st.project_invitations.map fun i =>
           if i.id == inv.id then { i with accepted_at := some now } else i })

/-- Outcome of `handleInviteUser` as surfaced to the inviter: success toast,
warning toast (invitation created but the email could not be sent), error
toast (the insert failed), or the early return on a blank email field. -/
inductive InviteResult
  | sent
  | emailWarning
  | insertFailed
  | noop
deriving DecidableEq

/-- Whitespace trimming (the `.trim()` of the handler), written on the
character list so that it evaluates by kernel reduction. -/
def trimStr (s : String) : String :=
  ⟨((s.data.dropWhile Char.isWhitespace).reverse.dropWhile Char.isWhitespace).reverse⟩

/-- Character-wise lower-casing (the `.toLowerCase()` of the handler). -/
def lowerStr (s : String) : String := ⟨s.data.map Char.toLower⟩

/-- Email normalisation used by `handleInviteUser`:
`inviteEmail.trim().toLowerCase()`. -/
def normEmail (s : String) : String := lowerStr (trimStr s)

/-- `handleInviteUser` from `TeamManagement.tsx`: after the blank-email early
return, first DELETE any pending invitation for (project, lower-cased email)
(the delete is silently restricted to rows the actor's row-level permission
reaches), then INSERT the new invitation (rejected when the actor lacks the
insert permission, or when a remaining row violates UNIQUE(project_id, email);
the already-executed delete is not rolled back), then dispatch the email;
`emailOk` is whether the notification call succeeds, and a dispatch failure
only downgrades the result to a warning. `fresh`/`tok` are the new row's id
and generated token; `expires_at` is `now` + 7 days (604800 s). -/
def handleInviteUser (st : DBState) (actor : UserId) (pid : ProjectId)
    (rawEmail : String) (role : MemberRole) (now : Time) (fresh : RowId)
    (tok : Token) (emailOk : Bool) : InviteResult × DBState :=
  if trimStr rawEmail == "" then (.noop, st)
  else
    let e := normEmail rawEmail
    let afterDel := st.project_invitations.filter fun i =>
      !(i.project_id == pid && i.email == e && i.accepted_at.isNone &&
        canManageInvitations st actor i.project_id)
    if !canManageInvitations st actor pid then
      (.insertFailed, { st with project_invitations := afterDel })
    else if afterDel.any fun i => i.project_id == pid && i.email == e then
      (.insertFailed, { st with project_invitations := afterDel })
    else
      let st1 : DBState :=
        { st with project_invitations :=
            afterDel ++ [⟨fresh, pid, e, role, actor, tok, now + 604800, none⟩] }
      if emailOk then (.sent, st1) else (.emailWarning, st1)

/-- `handleRevokeInvitation` from `TeamManagement.tsx`: DELETE the invitation
row by id; the row-level DELETE policy restricts the deletion to rows whose
project the actor owns or is a member of (rows outside that permission are
silently left in place, not reported as an error). -/
def handleRevokeInvitation (st : DBState) (actor : UserId) (invId : RowId) :
    DBState :=
  { st with project_invitations := st.project_invitations.filter fun i =>
      !(i.id == invId && canManageInvitations st actor i.project_id) }

/-- `handleRemoveMember` from `TeamManagement.tsx`: DELETE the membership row
by id; the only policy granting DELETE on `project_members` is "Project owners
can manage members" (`is_project_owner(project_id)`), so rows of projects the
actor does not own are silently left in place. -/
def handleRemoveMember (st : DBState) (actor : UserId) (memberId : RowId) :
    DBState :=
  { st with project_members := st.project_members.filter fun m =>
      !(m.id == memberId && is_project_owner st actor m.project_id) }

/-- Result of the remove-member action as exposed by the team-management UI. -/
inductive RemoveResult
  | removed
  | notAvailable
deriving DecidableEq

/-- The remove-member operation as exposed by `TeamManagement.tsx`: the remove
control for a row is rendered only under `isOwner && member.user_id !== userId`
(the `isOwner` prop is `project.owner_id === user.id` computed by the project
page), and clicking it runs `handleRemoveMember` on that row's id. A
self-targeting or non-owner removal is therefore not available and leaves the
state unchanged. -/
def removeMember (st : DBState) (actor : UserId) (memberId : RowId) :
    RemoveResult × DBState :=
  match st.project_members.find? fun m => m.id == memberId with
  | none => (.notAvailable, st)
  | some m =>
    if is_project_owner st actor m.project_id && m.user_id != actor then
      (.removed, handleRemoveMember st actor memberId)
    else (.notAvailable, st)

/-- Project creation together with its `add_owner_as_member` AFTER INSERT
trigger: the trigger inserts a `project_members` row
`(NEW.id, NEW.owner_id, 'owner', NEW.owner_id, joined_at := now())`. The two
inserts are modelled as one operation, as the trigger makes them. -/
def createProject (st : DBState) (pid : ProjectId) (name : String)
    (ownerId : UserId) (freshMember : RowId) (now : Time) : DBState :=
  { st with
    projects := st.projects ++ [⟨pid, name, ownerId⟩],
    project_members :=
      st.project_members ++ [⟨freshMember, pid, ownerId, .owner, ownerId, some now⟩] }

/-- The pending-invitations query of `fetchTeamData` in `TeamManagement.tsx`:
rows of the project with `accepted_at IS NULL` and `expires_at >` the current
instant, further restricted to rows the actor may SELECT. -/
def fetchPendingInvitations (st : DBState) (actor : UserId) (uemail : Email)
    (pid : ProjectId) (now : Time) : List InvitationRow :=
  st.project_invitations.filter fun i =>
    canViewInvitation st actor uemail i && i.project_id == pid &&
      i.accepted_at.isNone && decide (now < i.expires_at)

/-- `fetchInvitation` of the acceptance page: single row with the given token,
`accepted_at IS NULL` and `expires_at >` the current instant, among the rows
the actor may SELECT. -/
def fetchInvitation (st : DBState) (actor : UserId) (uemail : Email)
    (tok : Token) (now : Time) : Option InvitationRow :=
  (st.project_invitations.filter fun i => canViewInvitation st actor uemail i).find?
    fun i => i.token == tok && i.accepted_at.isNone && decide (now < i.expires_at)

/-- Uniqueness invariant of the spec: at most one unaccepted invitation per
(project, email) pair — two pending rows agreeing on project and email are the
same row. -/
@[reducible] def pendingUniq (st : DBState) : Prop :=
  ∀ i ∈ st.project_invitations, ∀ j ∈ st.project_invitations,
    i.project_id = j.project_id → i.email = j.email →
    i.accepted_at = none → j.accepted_at = none → i = j

/-! ## Helper lemmas -/

/-- On the success path of the token lookup and an exactly matching identity
email, `accept_invitation` upserts the membership and marks the invitation
accepted. -/
theorem accept_invitation_found (st : DBState) (uid : UserId) (now : Time)
    (fresh : RowId) (tok : Token) (inv : InvitationRow)
    (h1 : findPendingByToken st tok now = some inv) :
    accept_invitation st uid inv.email now fresh tok =
      (.success inv.project_id,
       { st with
         project_members :=
           upsertMember st.project_members fresh inv.project_id uid inv.role
             inv.invited_by now,
         project_invitations := st.project_invitations.map fun i =>
           if i.id == inv.id then { i with accepted_at := some now } else i }) := by
  unfold accept_invitation
  rw [h1]
  simp

/-- When the token lookup succeeds but the identity email differs from the
invitation email, `accept_invitation` returns the mismatch error with the
state untouched. -/
theorem accept_invitation_mismatch_aux (st : DBState) (uid : UserId)
    (uemail : Email) (now : Time) (fresh : RowId) (tok : Token)
    (inv : InvitationRow)
    (h1 : findPendingByToken st tok now = some inv)
    (h2 : uemail ≠ inv.email) :
    accept_invitation st uid uemail now fresh tok = (.emailMismatch, st) := by
  unfold accept_invitation
  rw [h1]
  simp [h2]

/-- Every invitation row present after `handleInviteUser` either was already
present or is the freshly inserted row. -/
theorem invite_state_subset (st : DBState) (actor : UserId) (pid : ProjectId)
    (rawEmail : String) (role : MemberRole) (now : Time) (fresh : RowId)
    (tok : Token) (emailOk : Bool) :
    ∀ i ∈ (handleInviteUser st actor pid rawEmail role now fresh tok
        emailOk).2.project_invitations,
      i ∈ st.project_invitations ∨
        i = ⟨fresh, pid, normEmail rawEmail, role, actor, tok, now + 604800, none⟩ := by
  simp only [handleInviteUser]
  split_ifs with h1 h2 h3 <;> intro i hi
  · exact Or.inl hi
  · exact Or.inl (List.mem_filter.1 hi).1
  · exact Or.inl (List.mem_filter.1 hi).1
  · rcases List.mem_append.1 hi with hl | hr
    · exact Or.inl (List.mem_filter.1 hl).1
    · exact Or.inr (List.mem_singleton.1 hr)
  · rcases List.mem_append.1 hi with hl | hr
    · exact Or.inl (List.mem_filter.1 hl).1
    · exact Or.inr (List.mem_singleton.1 hr)

/-- When the email field is nonblank, the actor passes the row-level check and
no accepted invitation occupies the (project, email) slot, `handleInviteUser`
deletes the superseded pending rows and inserts the fresh invitation; a failed
email dispatch only changes the reported result, not the state. -/
theorem invite_success_state (st : DBState) (actor : UserId) (pid : ProjectId)
    (rawEmail : String) (role : MemberRole) (now : Time) (fresh : RowId)
    (tok : Token) (emailOk : Bool)
    (hemail : (trimStr rawEmail == "") = false)
    (hcan : canManageInvitations st actor pid = true)
    (hnoconf : ∀ i ∈ st.project_invitations, i.project_id = pid →
        i.email = normEmail rawEmail → i.accepted_at = none) :
    handleInviteUser st actor pid rawEmail role now fresh tok emailOk =
      ((if emailOk then InviteResult.sent else InviteResult.emailWarning),
       { st with project_invitations :=
           (st.project_invitations.filter fun i =>
             !(i.project_id == pid && i.email == normEmail rawEmail &&
               i.accepted_at.isNone && canManageInvitations st actor i.project_id)) ++
           [⟨fresh, pid, normEmail rawEmail, role, actor, tok, now + 604800, none⟩] }) := by
  have hany : ((st.project_invitations.filter fun i =>
      !(i.project_id == pid && i.email == normEmail rawEmail &&
        i.accepted_at.isNone && canManageInvitations st actor i.project_id)).any
      fun i => i.project_id == pid && i.email == normEmail rawEmail) = false := by
    rw [List.any_eq_false]
    intro i hi
    obtain ⟨hmem, hkeep⟩ := List.mem_filter.1 hi
    intro hpred
    simp only [Bool.and_eq_true, beq_iff_eq] at hpred
    obtain ⟨hip, hie⟩ := hpred
    have hacc : i.accepted_at = none := hnoconf i hmem hip hie
    simp [hip, hie, hacc, hcan] at hkeep
  simp only [handleInviteUser, hemail, Bool.false_eq_true, if_false, hcan,
    Bool.not_true, hany]
  cases emailOk <;> rfl

/-!  ## Claims -/

/-- Claim C6: immediately after `createProject` (the project insert together
with its `add_owner_as_member` trigger), the creator is the project's owner
according to `is_project_owner`, and a membership row for the owner exists
with role `owner` and a non-null `joined_at`. -/
theorem createProject_owner_enrolled (st : DBState) (pid : ProjectId)
    (pname : String) (ownerId : UserId) (fm : RowId) (now : Time) :
    is_project_owner (createProject st pid pname ownerId fm now) ownerId pid = true ∧
    ∃ m ∈ (createProject st pid pname ownerId fm now).project_members,
      m.project_id = pid ∧ m.user_id = ownerId ∧ m.role = MemberRole.owner ∧
      m.joined_at = some now := by
  constructor
  · simp [is_project_owner, createProject]
  · refine ⟨⟨fm, pid, ownerId, .owner, ownerId, some now⟩, ?_, rfl, rfl, rfl, rfl⟩
    simp [createProject]

/-- Claim C2: when the invoking identity's email does not equal the
invitation's email, `accept_invitation` fails with the email-mismatch error
and the returned state is exactly the input state — the invitation is still
pending and no membership row was created or updated — so the correctly
identified user can still accept the same token afterwards. -/
theorem accept_invitation_email_mismatch (st : DBState) (uid uid2 : UserId)
    (uemail : Email) (now : Time) (fresh fresh2 : RowId) (tok : Token)
    (inv : InvitationRow)
    (h1 : findPendingByToken st tok now = some inv)
    (h2 : uemail ≠ inv.email) :
    accept_invitation st uid uemail now fresh tok = (.emailMismatch, st) ∧
    (accept_invitation st uid2 inv.email now fresh2 tok).1 =
      .success inv.project_id := by
  refine ⟨accept_invitation_mismatch_aux st uid uemail now fresh tok inv h1 h2, ?_⟩
  rw [accept_invitation_found st uid2 now fresh2 tok inv h1]

/-- Claim C3: an invitation whose expiry is not in the future is treated as
not-found by all three lookups — the pending-invitations listing of the team
view, the acceptance page's fetch by token, and the lookup inside the
`accept_invitation` procedure (which then reports invalid-or-expired and
leaves the state untouched) — even when `accepted_at` is null. -/
theorem expired_invitation_never_pending (st : DBState) (actor uid : UserId)
    (uemail : Email) (pid : ProjectId) (now : Time) (fresh : RowId)
    (i : InvitationRow)
    (hexp : i.expires_at ≤ now) :
    i ∉ fetchPendingInvitations st actor uemail pid now ∧
    fetchInvitation st actor uemail i.token now ≠ some i ∧
    ((∀ j ∈ st.project_invitations, j.token = i.token → j.expires_at ≤ now) →
      accept_invitation st uid uemail now fresh i.token =
        (.invalidOrExpired, st)) := by
  refine ⟨?_, ?_, ?_⟩
  · intro hmem
    have hp := (List.mem_filter.1 hmem).2
    simp only [Bool.and_eq_true, decide_eq_true_eq] at hp
    exact Nat.lt_irrefl now (Nat.lt_of_lt_of_le hp.2 hexp)
  · intro heq
    have hp := List.find?_some heq
    simp only [Bool.and_eq_true, decide_eq_true_eq] at hp
    exact Nat.lt_irrefl now (Nat.lt_of_lt_of_le hp.2 hexp)
  · intro hall
    have hnone : findPendingByToken st i.token now = none := by
      rw [findPendingByToken, List.find?_eq_none]
      intro j hj hp
      simp only [Bool.and_eq_true, decide_eq_true_eq, beq_iff_eq] at hp
      have hje := hall j hj hp.1.1
      exact Nat.lt_irrefl now (Nat.lt_of_lt_of_le hp.1.2 hje)
    unfold accept_invitation
    rw [hnone]

/-- Filtering after a map that does not change whether the predicate holds
keeps the number of matching rows. -/
theorem length_filter_map_eq {α : Type} (l : List α) (f : α → α) (p : α → Bool)
    (hf : ∀ a, p (f a) = p a) :
    ((l.map f).filter p).length = (l.filter p).length := by
  induction l with
  | nil => rfl
  | cons a t ih =>
    simp only [List.map_cons, List.filter_cons, hf a]
    cases hpa : p a
    · simpa using ih
    · simpa using ih

/-- The `ON CONFLICT (project_id, user_id) DO UPDATE` upsert of
`accept_invitation`: some row for the pair now has the invitation's role and a
fresh `joined_at`, and — given the table's uniqueness constraint held before —
exactly one row for the pair exists afterwards. -/
theorem upsertMember_spec (members : List MemberRow) (fresh : RowId)
    (pid : ProjectId) (uid : UserId) (role : MemberRole) (inviter : UserId)
    (now : Time)
    (hcount : (members.filter fun m =>
        m.project_id == pid && m.user_id == uid).length ≤ 1) :
    (∃ m ∈ upsertMember members fresh pid uid role inviter now,
        m.project_id = pid ∧ m.user_id = uid ∧ m.role = role ∧
        m.joined_at = some now) ∧
    ((upsertMember members fresh pid uid role inviter now).filter fun m =>
        m.project_id == pid && m.user_id == uid).length = 1 := by
  unfold upsertMember
  by_cases h : (members.any fun m => m.project_id == pid && m.user_id == uid) = true
  · rw [if_pos h]
    obtain ⟨m₀, hm₀, hp₀⟩ := List.any_eq_true.1 h
    constructor
    · have hmem2 : ({ m₀ with role := role, joined_at := some now } : MemberRow) ∈
          members.map fun m => if m.project_id == pid && m.user_id == uid then
            { m with role := role, joined_at := some now } else m := by
        have hmap := List.mem_map_of_mem (fun m =>
          if m.project_id == pid && m.user_id == uid then
            { m with role := role, joined_at := some now } else m) hm₀
        simpa [hp₀] using hmap
      have hpe : m₀.project_id = pid ∧ m₀.user_id = uid := by
        simpa [Bool.and_eq_true, beq_iff_eq] using hp₀
      exact ⟨_, hmem2, hpe.1, hpe.2, rfl, rfl⟩
    · rw [length_filter_map_eq _ _ _ ?_]
      · have hpos : 0 < (members.filter fun m =>
            m.project_id == pid && m.user_id == uid).length :=
          List.length_pos.2 (List.ne_nil_of_mem (List.mem_filter.2 ⟨hm₀, hp₀⟩))
        exact Nat.le_antisymm hcount hpos
      · intro a
        by_cases hm : (a.project_id == pid && a.user_id == uid) = true
        · simp [hm]
        · simp only [Bool.not_eq_true] at hm
          simp [hm]
  · rw [if_neg h]
    have hall : ∀ m ∈ members, ¬(m.project_id == pid && m.user_id == uid) = true := by
      intro m hm hpm
      exact h (List.any_eq_true.2 ⟨m, hm, hpm⟩)
    constructor
    · exact ⟨⟨fresh, pid, uid, role, inviter, some now⟩,
        List.mem_append_right _ (List.mem_singleton.2 rfl), rfl, rfl, rfl, rfl⟩
    · rw [List.filter_append, List.filter_eq_nil_iff.2 hall]
      simp

/-- Claim C1: for a valid, unexpired, pending invitation whose email matches
the invoking identity (and whose token identifies it uniquely, as the randomly
generated tokens do), the first `accept_invitation` call succeeds; some
membership row for (project, user) then carries the invitation's role and a
set `joined_at`, and, the membership table having satisfied its uniqueness
constraint before, exactly one such row exists (no duplicate membership). Any
second acceptance attempt with the same token — by anyone, at any later
instant — fails as not-found/invalid and leaves the state unchanged. -/
theorem accept_invitation_exactly_once (st : DBState) (uid uid2 : UserId)
    (uemail2 : Email) (now now2 : Time) (fresh fresh2 : RowId) (tok : Token)
    (inv : InvitationRow)
    (h1 : findPendingByToken st tok now = some inv)
    (htok : ∀ i ∈ st.project_invitations, i.token = tok → i.id = inv.id)
    (hcount : (st.project_members.filter fun m =>
        m.project_id == inv.project_id && m.user_id == uid).length ≤ 1) :
    (accept_invitation st uid inv.email now fresh tok).1 =
      .success inv.project_id ∧
    (∃ m ∈ (accept_invitation st uid inv.email now fresh tok).2.project_members,
        m.project_id = inv.project_id ∧ m.user_id = uid ∧ m.role = inv.role ∧
        m.joined_at = some now) ∧
    ((accept_invitation st uid inv.email now fresh tok).2.project_members.filter
        fun m => m.project_id == inv.project_id && m.user_id == uid).length = 1 ∧
    accept_invitation (accept_invitation st uid inv.email now fresh tok).2 uid2
        uemail2 now2 fresh2 tok =
      (.invalidOrExpired, (accept_invitation st uid inv.email now fresh tok).2) := by
  rw [accept_invitation_found st uid now fresh tok inv h1]
  obtain ⟨hex, hcnt⟩ := upsertMember_spec st.project_members fresh inv.project_id
    uid inv.role inv.invited_by now hcount
  refine ⟨rfl, hex, hcnt, ?_⟩
  have hnone : findPendingByToken
      { st with
        project_members :=
          upsertMember st.project_members fresh inv.project_id uid inv.role
            inv.invited_by now,
        project_invitations := st.project_invitations.map fun i =>
          if i.id == inv.id then { i with accepted_at := some now } else i }
      tok now2 = none := by
    rw [findPendingByToken, List.find?_eq_none]
    intro x hx
    obtain ⟨j, hj, rfl⟩ := List.mem_map.1 hx
    intro hp
    simp only [Bool.and_eq_true, beq_iff_eq] at hp
    by_cases hid : j.id = inv.id
    · rw [if_pos hid] at hp
      simp at hp
    · rw [if_neg hid] at hp
      exact hid (htok j hj hp.1.1)
  unfold accept_invitation
  rw [hnone]


/-- A state whose invitation rows all come from another state inherits the
pending-uniqueness invariant. -/
theorem pendingUniq_mono (st st2 : DBState)
    (hsub : ∀ i ∈ st2.project_invitations, i ∈ st.project_invitations)
    (h : pendingUniq st) : pendingUniq st2 :=
  fun i hi j hj => h i (hsub i hi) j (hsub j hj)

/-- Rows kept by the supersession delete of `handleInviteUser` cannot be
pending rows of the superseded (project, email) slot when the actor passes the
row-level check. -/
theorem afterDel_no_pending_match (st : DBState) (actor : UserId)
    (pid : ProjectId) (e : Email)
    (hcan : canManageInvitations st actor pid = true) :
    ∀ i ∈ st.project_invitations.filter fun i =>
        !(i.project_id == pid && i.email == e && i.accepted_at.isNone &&
          canManageInvitations st actor i.project_id),
      i.project_id = pid → i.email = e → i.accepted_at = none → False := by
  intro i hi hip hie hacc
  have hkeep := (List.mem_filter.1 hi).2
  simp [hip, hie, hacc, hcan] at hkeep

/-- `handleInviteUser` preserves pending-uniqueness. -/
theorem pendingUniq_invite (st : DBState) (actor : UserId) (pid : ProjectId)
    (rawEmail : String) (role : MemberRole) (now : Time) (fresh : RowId)
    (tok : Token) (emailOk : Bool) (h : pendingUniq st) :
    pendingUniq (handleInviteUser st actor pid rawEmail role now fresh tok
      emailOk).2 := by
  simp only [handleInviteUser]
  split_ifs with h1 h2 h3
  · exact h
  · exact pendingUniq_mono st _ (fun i hi => (List.mem_filter.1 hi).1) h
  · exact pendingUniq_mono st _ (fun i hi => (List.mem_filter.1 hi).1) h
  all_goals {
    have hcan : canManageInvitations st actor pid = true := by
      rcases Bool.eq_false_or_eq_true (canManageInvitations st actor pid) with hc | hc
      · exact hc
      · exact absurd (by rw [hc]; rfl) h2
    intro i hi j hj hp he hia hja
    rcases List.mem_append.1 hi with hi1 | hi2 <;>
      rcases List.mem_append.1 hj with hj1 | hj2
    · exact h i (List.mem_filter.1 hi1).1 j (List.mem_filter.1 hj1).1 hp he hia hja
    · rw [List.mem_singleton.1 hj2] at hp he
      exact (afterDel_no_pending_match st actor pid (normEmail rawEmail) hcan
        i hi1 hp he hia).elim
    · rw [List.mem_singleton.1 hi2] at hp he
      exact (afterDel_no_pending_match st actor pid (normEmail rawEmail) hcan
        j hj1 hp.symm he.symm hja).elim
    · rw [List.mem_singleton.1 hi2, List.mem_singleton.1 hj2]
  }

/-- `accept_invitation` preserves pending-uniqueness: it only turns pending
rows into accepted ones. -/
theorem pendingUniq_accept (st : DBState) (uid : UserId) (uemail : Email)
    (now : Time) (fresh : RowId) (tok : Token) (h : pendingUniq st) :
    pendingUniq (accept_invitation st uid uemail now fresh tok).2 := by
  rcases hf : findPendingByToken st tok now with _ | inv
  · have heq : accept_invitation st uid uemail now fresh tok =
        (.invalidOrExpired, st) := by
      unfold accept_invitation
      rw [hf]
    rw [heq]
    exact h
  · rcases eq_or_ne uemail inv.email with he | he
    · rw [he, accept_invitation_found st uid now fresh tok inv hf]
      have key : ∀ x, x ∈ st.project_invitations.map (fun i =>
          if i.id == inv.id then { i with accepted_at := some now } else i) →
          x.accepted_at = none → x ∈ st.project_invitations := by
        intro x hx hxn
        obtain ⟨y, hy, hxy⟩ := List.mem_map.1 hx
        by_cases hid : (y.id == inv.id) = true
        · rw [if_pos hid] at hxy
          rw [← hxy] at hxn
          simp at hxn
        · rw [if_neg hid] at hxy
          rw [← hxy]
          exact hy
      intro i hi j hj hp hem hia hja
      exact h i (key i hi hia) j (key j hj hja) hp hem hia hja
    · rw [accept_invitation_mismatch_aux st uid uemail now fresh tok inv hf he]
      exact h

/-- `handleRevokeInvitation` preserves pending-uniqueness. -/
theorem pendingUniq_revoke (st : DBState) (actor : UserId) (invId : RowId)
    (h : pendingUniq st) :
    pendingUniq (handleRevokeInvitation st actor invId) :=
  pendingUniq_mono st _ (fun _ hi => (List.mem_filter.1 hi).1) h

/-- `createProject` does not touch the invitation table. -/
theorem pendingUniq_create (st : DBState) (pid : ProjectId) (pname : String)
    (ownerId : UserId) (fm : RowId) (now : Time) (h : pendingUniq st) :
    pendingUniq (createProject st pid pname ownerId fm now) := h

/-- When the member-row lookup succeeds, `removeMember` reduces to the guard
test over that row. -/
theorem removeMember_eq_some (st : DBState) (actor : UserId) (mId : RowId)
    (m : MemberRow)
    (hfind : st.project_members.find? (fun x => x.id == mId) = some m) :
    removeMember st actor mId =
      if (is_project_owner st actor m.project_id && m.user_id != actor) = true
      then (.removed, handleRemoveMember st actor mId)
      else (.notAvailable, st) := by
  unfold removeMember
  rw [hfind]

/-- `removeMember` does not touch the invitation table. -/
theorem pendingUniq_remove (st : DBState) (actor : UserId) (mId : RowId)
    (h : pendingUniq st) : pendingUniq (removeMember st actor mId).2 := by
  rcases hfind : st.project_members.find? (fun x => x.id == mId) with _ | m
  · have heq : removeMember st actor mId = (.notAvailable, st) := by
      unfold removeMember
      rw [hfind]
    rw [heq]
    exact h
  · rw [removeMember_eq_some st actor mId m hfind]
    by_cases hc : (is_project_owner st actor m.project_id && m.user_id != actor) = true
    · rw [if_pos hc]
      exact h
    · rw [if_neg hc]
      exact h

/-- Claim C7: the at-most-one-pending-invitation-per-(project, email)
invariant is preserved by every modelled operation: invitation creation (which
first deletes the superseded pending rows, then inserts), acceptance,
revocation, project creation and member removal. -/
theorem pendingUniq_preserved (st : DBState) (actor uid ownerId : UserId)
    (pid pid2 : ProjectId) (rawEmail pname : String) (role : MemberRole)
    (now now2 now3 : Time) (fresh fresh2 fm : RowId) (tok tok2 : Token)
    (emailOk : Bool) (uemail : Email) (invId mId : RowId)
    (h : pendingUniq st) :
    pendingUniq (handleInviteUser st actor pid rawEmail role now fresh tok
      emailOk).2 ∧
    pendingUniq (accept_invitation st uid uemail now2 fresh2 tok2).2 ∧
    pendingUniq (handleRevokeInvitation st actor invId) ∧
    pendingUniq (createProject st pid2 pname ownerId fm now3) ∧
    pendingUniq (removeMember st actor mId).2 :=
  ⟨pendingUniq_invite st actor pid rawEmail role now fresh tok emailOk h,
   pendingUniq_accept st uid uemail now2 fresh2 tok2 h,
   pendingUniq_revoke st actor invId h,
   pendingUniq_create st pid2 pname ownerId fm now3 h,
   pendingUniq_remove st actor mId h⟩

/-- Claim C5: the remove-member action of the team view (whose control is
rendered only for the owner and only on rows of other users, and whose
deletion passes the owner-only row-level policy) is unavailable to the owner
against their own membership row and leaves the state unchanged there; against
any other member's row it deletes the row, after which — the table's
uniqueness constraint having held — `is_project_member` is false for that
user. -/
theorem removeMember_owner_rules (st : DBState) (actor : UserId) (mId : RowId)
    (m : MemberRow)
    (hfind : st.project_members.find? (fun x => x.id == mId) = some m)
    (hown : is_project_owner st actor m.project_id = true)
    (huniq : ∀ x ∈ st.project_members, x.project_id = m.project_id →
        x.user_id = m.user_id → x.id = mId) :
    (m.user_id = actor → removeMember st actor mId = (.notAvailable, st)) ∧
    (m.user_id ≠ actor →
      (removeMember st actor mId).1 = .removed ∧
      m ∉ (removeMember st actor mId).2.project_members ∧
      is_project_member (removeMember st actor mId).2 m.user_id m.project_id
        = false) := by
  constructor
  · intro hself
    rw [removeMember_eq_some st actor mId m hfind, if_neg (by simp [hself])]
  · intro hne
    rw [removeMember_eq_some st actor mId m hfind,
      if_pos (by simp [hown, bne_iff_ne, hne])]
    have hid := List.find?_some hfind
    refine ⟨rfl, ?_, ?_⟩
    · intro hmem
      have hkeep := (List.mem_filter.1 hmem).2
      simp [hid, hown] at hkeep
    · rw [is_project_member, List.any_eq_false]
      intro x hx hpx
      obtain ⟨hxmem, hxkeep⟩ := List.mem_filter.1 hx
      simp only [Bool.and_eq_true, beq_iff_eq] at hpx
      have hxid : x.id = mId := huniq x hxmem hpx.1.1 hpx.1.2
      simp [hxid, hpx.1.1, hown] at hxkeep

/-- Claim C8: when the invitation insert succeeds but the notification email
fails, `handleInviteUser` reports the warning outcome, the created invitation
row is still present, and the resulting state is identical to the one a
successful dispatch would have produced — the failure never rolls the
invitation back. -/
theorem invite_email_failure_warns (st : DBState) (actor : UserId)
    (pid : ProjectId) (rawEmail : String) (role : MemberRole) (now : Time)
    (fresh : RowId) (tok : Token)
    (hemail : (trimStr rawEmail == "") = false)
    (hcan : canManageInvitations st actor pid = true)
    (hnoconf : ∀ i ∈ st.project_invitations, i.project_id = pid →
        i.email = normEmail rawEmail → i.accepted_at = none) :
    (handleInviteUser st actor pid rawEmail role now fresh tok false).1 =
      .emailWarning ∧
    (⟨fresh, pid, normEmail rawEmail, role, actor, tok, now + 604800, none⟩ :
        InvitationRow) ∈
      (handleInviteUser st actor pid rawEmail role now fresh tok
        false).2.project_invitations ∧
    (handleInviteUser st actor pid rawEmail role now fresh tok false).2 =
      (handleInviteUser st actor pid rawEmail role now fresh tok true).2 := by
  rw [invite_success_state st actor pid rawEmail role now fresh tok false hemail
    hcan hnoconf,
    invite_success_state st actor pid rawEmail role now fresh tok true hemail
    hcan hnoconf]
  exact ⟨rfl, List.mem_append_right _ (List.mem_singleton.2 rfl), rfl⟩


/-- Claim C4 counterexample state: project 1 is owned by user 10; user 20 is
an accepted (joined) contributor, not the owner; one pending invitation
(row 1) exists. -/
def stA : DBState :=
  { projects := [⟨1, "alpha", 10⟩],
    project_members := [⟨1, 1, 10, .owner, 10, some 0⟩,
                        ⟨2, 1, 20, .contributor, 10, some 1⟩],
    project_invitations := [⟨1, 1, "bob@x.com", .contributor, 10, 77, 100, none⟩] }

/-- Claim C4 is false on the code: user 20 is an accepted member of project 1
but not its owner, yet their `handleInviteUser` call succeeds (the row-level
policies admit members) and their `handleRevokeInvitation` call deletes the
pending invitation. -/
theorem invitation_ops_member_counterexample :
    is_project_owner stA 20 1 = false ∧
    is_project_member stA 20 1 = true ∧
    (handleInviteUser stA 20 1 "d@x.com" .contributor 5 2 66 true).1 =
      .sent ∧
    (handleRevokeInvitation stA 20 1).project_invitations = [] := by decide

/-- Claim C4 amended: creating and revoking invitations is governed by the
owner-or-member policies — a user who is neither the owner nor an accepted
member is denied (insert fails, revocation deletes nothing), while an accepted
member is permitted just as the owner is. -/
theorem invitation_ops_owner_or_member (st : DBState) (pid : ProjectId)
    (outsider memberU : UserId) (rawEmail : String) (role : MemberRole)
    (now : Time) (fresh : RowId) (tok : Token) (emailOk : Bool)
    (inv : InvitationRow)
    (hemail : (trimStr rawEmail == "") = false)
    (hout1 : is_project_owner st outsider pid = false)
    (hout2 : is_project_member st outsider pid = false)
    (hmem : is_project_member st memberU pid = true)
    (hnoconf : ∀ i ∈ st.project_invitations, i.project_id = pid →
        i.email = normEmail rawEmail → i.accepted_at = none)
    (hinv : inv ∈ st.project_invitations) (hinvp : inv.project_id = pid) :
    (handleInviteUser st outsider pid rawEmail role now fresh tok emailOk).1 =
      .insertFailed ∧
    (handleInviteUser st memberU pid rawEmail role now fresh tok emailOk).1 ≠
      .insertFailed ∧
    inv ∈ (handleRevokeInvitation st outsider inv.id).project_invitations ∧
    inv ∉ (handleRevokeInvitation st memberU inv.id).project_invitations := by
  have houtcan : canManageInvitations st outsider pid = false := by
    rw [canManageInvitations, hout1, hout2]
    rfl
  have hmemcan : canManageInvitations st memberU pid = true := by
    rw [canManageInvitations, hmem]
    simp
  refine ⟨?_, ?_, ?_, ?_⟩
  · simp [handleInviteUser, hemail, houtcan]
  · rw [invite_success_state st memberU pid rawEmail role now fresh tok emailOk
      hemail hmemcan hnoconf]
    cases emailOk <;> simp
  · simp only [handleRevokeInvitation]
    refine List.mem_filter.2 ⟨hinv, ?_⟩
    simp [hinvp, houtcan]
  · simp only [handleRevokeInvitation]
    intro hmem2
    have hkeep := (List.mem_filter.1 hmem2).2
    simp [hinvp, hmemcan] at hkeep

/-- State after the owner of project 1 invites the mixed-case address
"Carl@X.com": the handler stores it lower-cased. -/
def stC9 : DBState :=
  (handleInviteUser stA 10 1 "Carl@X.com" .contributor 0 5 88 true).2

/-- Claim C9 is false on the code: the invitation email is stored lower-cased
("carl@x.com"), but the `accept_invitation` identity check compares exactly,
so an identity whose email differs from the stored one only in letter case
("Carl@X.com") does NOT pass the email-match step — it fails with the
email-mismatch error and the state is unchanged. -/
theorem accept_case_insensitive_counterexample :
    (∃ i ∈ stC9.project_invitations,
        i.email = "carl@x.com" ∧ i.token = 88 ∧ i.accepted_at = none) ∧
    accept_invitation stC9 30 "Carl@X.com" 1 6 88 = (.emailMismatch, stC9) := by
  decide

/-- Claim C9 amended: invitation emails are stored trimmed and lower-cased,
but the acceptance identity check compares emails exactly and case
sensitively: an identity email differing from the stored (lower-cased) email —
even only in letter case — fails with the mismatch error, and only the exact
stored email passes the match step. -/
theorem invitation_emails_lowercased_compared_exactly (st : DBState)
    (actor uid uid2 : UserId) (pid : ProjectId) (rawEmail : String)
    (role : MemberRole) (now : Time) (fresh fresh2 fresh3 : RowId)
    (tok tok2 : Token) (emailOk : Bool) (uemail : Email) (inv : InvitationRow)
    (h1 : findPendingByToken st tok2 now = some inv)
    (h2 : uemail ≠ inv.email) :
    (∀ i ∈ (handleInviteUser st actor pid rawEmail role now fresh tok
        emailOk).2.project_invitations,
      i ∈ st.project_invitations ∨ i.email = normEmail rawEmail) ∧
    accept_invitation st uid uemail now fresh2 tok2 = (.emailMismatch, st) ∧
    (accept_invitation st uid2 inv.email now fresh3 tok2).1 =
      .success inv.project_id := by
  refine ⟨?_,
    accept_invitation_mismatch_aux st uid uemail now fresh2 tok2 inv h1 h2, ?_⟩
  · intro i hi
    rcases invite_state_subset st actor pid rawEmail role now fresh tok emailOk
        i hi with h | h
    · exact Or.inl h
    · exact Or.inr (by rw [h])
  · rw [accept_invitation_found st uid2 now fresh3 tok2 inv h1]

/-- Claim C10: when an accepted invitation already occupies the
(project, email) slot, `handleInviteUser` fails: the supersession delete only
removes rows with `accepted_at IS NULL`, so the accepted row survives it and
the insert violates UNIQUE(project_id, email); no new invitation row is
created (regardless of the actor's permission). -/
theorem invite_conflict_on_accepted (st : DBState) (actor : UserId)
    (pid : ProjectId) (rawEmail : String) (role : MemberRole) (now : Time)
    (fresh : RowId) (tok : Token) (emailOk : Bool) (inv : InvitationRow)
    (hemail : (trimStr rawEmail == "") = false)
    (hinv : inv ∈ st.project_invitations)
    (hp : inv.project_id = pid)
    (he : inv.email = normEmail rawEmail)
    (hacc : inv.accepted_at ≠ none) :
    (handleInviteUser st actor pid rawEmail role now fresh tok emailOk).1 =
      .insertFailed ∧
    ∀ i ∈ (handleInviteUser st actor pid rawEmail role now fresh tok
        emailOk).2.project_invitations,
      i ∈ st.project_invitations := by
  have hkeepinv : (!(inv.project_id == pid && inv.email == normEmail rawEmail &&
      inv.accepted_at.isNone && canManageInvitations st actor inv.project_id))
      = true := by
    have hnone : inv.accepted_at.isNone = false := by
      cases ha : inv.accepted_at
      · exact absurd ha hacc
      · rfl
    simp [hnone]
  rcases Bool.eq_false_or_eq_true (canManageInvitations st actor pid) with hcan | hcan
  · have hany : ((st.project_invitations.filter fun i =>
        !(i.project_id == pid && i.email == normEmail rawEmail &&
          i.accepted_at.isNone && canManageInvitations st actor i.project_id)).any
        fun i => i.project_id == pid && i.email == normEmail rawEmail) = true := by
      refine List.any_eq_true.2 ⟨inv, List.mem_filter.2 ⟨hinv, hkeepinv⟩, ?_⟩
      simp [hp, he]
    simp only [handleInviteUser, hemail, Bool.false_eq_true, if_false, hcan,
      Bool.not_true, hany, if_true]
    exact ⟨by simp, fun i hi => (List.mem_filter.1 hi).1⟩
  · simp only [handleInviteUser, hemail, Bool.false_eq_true, if_false, hcan,
      Bool.not_false, if_true]
    exact ⟨by simp, fun i hi => (List.mem_filter.1 hi).1⟩


/-! ## Concrete witnesses -/

/-- Witness state with an invitation that expired (at 40) before the lookup
instant (50). -/
def stE : DBState :=
  { projects := [⟨1, "alpha", 10⟩],
    project_members := [⟨1, 1, 10, .owner, 10, some 0⟩],
    project_invitations := [⟨1, 1, "bob@x.com", .contributor, 10, 77, 40, none⟩] }

/-- Witness state whose (project 1, "acc@x.com") slot is occupied by an
already accepted invitation. -/
def stB : DBState :=
  { projects := [⟨1, "alpha", 10⟩],
    project_members := [⟨1, 1, 10, .owner, 10, some 0⟩],
    project_invitations := [⟨2, 1, "acc@x.com", .contributor, 10, 78, 100, some 3⟩] }

/-- Witness for claim C1 at a concrete state: user 20 accepts the pending
token 77 of project 1; the call succeeds and exactly one membership row for
(project 1, user 20) remains. -/
theorem accept_invitation_exactly_once_witness :
    (accept_invitation stA 20 "bob@x.com" 50 9 77).1 = .success 1 ∧
    ((accept_invitation stA 20 "bob@x.com" 50 9 77).2.project_members.filter
        fun m => m.project_id == 1 && m.user_id == 20).length = 1 := by
  have h := accept_invitation_exactly_once stA 20 21 "z@x.com" 50 60 9 11 77
    ⟨1, 1, "bob@x.com", .contributor, 10, 77, 100, none⟩
    (by decide) (by decide) (by decide)
  exact ⟨h.1, h.2.2.1⟩

/-- Witness for claim C2 at a concrete state: an identity with a different
email gets the mismatch error and the state back unchanged, while the invited
identity can still accept. -/
theorem accept_invitation_email_mismatch_witness :
    accept_invitation stA 31 "eve@x.com" 50 14 77 = (.emailMismatch, stA) ∧
    (accept_invitation stA 22 "bob@x.com" 50 15 77).1 = .success 1 := by
  have h := accept_invitation_email_mismatch stA 31 22 "eve@x.com" 50 14 15 77
    ⟨1, 1, "bob@x.com", .contributor, 10, 77, 100, none⟩ (by decide) (by decide)
  exact ⟨h.1, h.2⟩

/-- Witness for claim C3 at a concrete state: the invitation expired at 40 is
absent from the pending listing at 50 and its token is rejected by
`accept_invitation`. -/
theorem expired_invitation_never_pending_witness :
    (⟨1, 1, "bob@x.com", .contributor, 10, 77, 40, none⟩ : InvitationRow) ∉
      fetchPendingInvitations stE 10 "bob@x.com" 1 50 ∧
    accept_invitation stE 20 "bob@x.com" 50 9 77 = (.invalidOrExpired, stE) := by
  have h := expired_invitation_never_pending stE 10 20 "bob@x.com" 1 50 9
    ⟨1, 1, "bob@x.com", .contributor, 10, 77, 40, none⟩ (by decide)
  exact ⟨h.1, h.2.2 (by decide)⟩

/-- Witness for the amended claim C4 at a concrete state: outsider 30 cannot
create or revoke invitations on project 1, while accepted member 20 can. -/
theorem invitation_ops_owner_or_member_witness :
    (handleInviteUser stA 30 1 "d@x.com" .contributor 5 2 66 true).1 =
      .insertFailed ∧
    (handleInviteUser stA 20 1 "d@x.com" .contributor 5 2 66 true).1 ≠
      .insertFailed ∧
    (⟨1, 1, "bob@x.com", .contributor, 10, 77, 100, none⟩ : InvitationRow) ∉
      (handleRevokeInvitation stA 20 1).project_invitations := by
  have h := invitation_ops_owner_or_member stA 1 30 20 "d@x.com" .contributor
    5 2 66 true ⟨1, 1, "bob@x.com", .contributor, 10, 77, 100, none⟩
    (by decide) (by decide) (by decide) (by decide) (by decide) (by decide)
    (by decide)
  exact ⟨h.1, h.2.1, h.2.2.2⟩

/-- Witness for claim C5 at a concrete state: owner 10 cannot remove their own
row 1 (state unchanged); removing contributor row 2 succeeds and user 20 is no
longer a member. -/
theorem removeMember_owner_rules_witness :
    removeMember stA 10 1 = (.notAvailable, stA) ∧
    (removeMember stA 10 2).1 = .removed ∧
    is_project_member (removeMember stA 10 2).2 20 1 = false := by
  have hself := removeMember_owner_rules stA 10 1 ⟨1, 1, 10, .owner, 10, some 0⟩
    (by decide) (by decide) (by decide)
  have hother := removeMember_owner_rules stA 10 2
    ⟨2, 1, 20, .contributor, 10, some 1⟩ (by decide) (by decide) (by decide)
  have h2 := hother.2 (by decide)
  exact ⟨hself.1 rfl, h2.1, h2.2.2⟩

/-- Witness for claim C7 at a concrete state: the invariant holds of `stA` and
is preserved by a concrete invitation creation and a concrete acceptance. -/
theorem pendingUniq_preserved_witness :
    pendingUniq (handleInviteUser stA 10 1 "new@x.com" .contributor 5 9 99
      true).2 ∧
    pendingUniq (accept_invitation stA 20 "bob@x.com" 50 12 77).2 := by
  have h := pendingUniq_preserved stA 10 20 11 1 2 "new@x.com" "beta"
    .contributor 5 50 7 9 12 13 99 77 true "bob@x.com" 1 2 (by decide)
  exact ⟨h.1, h.2.1⟩

/-- Witness for claim C8 at a concrete state: with the email dispatch failing,
the inviter gets the warning outcome and the state equals the success-path
state. -/
theorem invite_email_failure_warns_witness :
    (handleInviteUser stA 10 1 "new@x.com" .contributor 5 9 99 false).1 =
      .emailWarning ∧
    (handleInviteUser stA 10 1 "new@x.com" .contributor 5 9 99 false).2 =
      (handleInviteUser stA 10 1 "new@x.com" .contributor 5 9 99 true).2 := by
  have h := invite_email_failure_warns stA 10 1 "new@x.com" .contributor 5 9 99
    (by decide) (by decide) (by decide)
  exact ⟨h.1, h.2.2⟩

/-- Witness for the amended claim C9 at a concrete state: "Bob@x.com" differs
from the stored "bob@x.com" only in case and is rejected, while the exact
stored email is accepted. -/
theorem invitation_emails_lowercased_compared_exactly_witness :
    accept_invitation stA 30 "Bob@x.com" 50 6 77 = (.emailMismatch, stA) ∧
    (accept_invitation stA 20 "bob@x.com" 50 7 77).1 = .success 1 := by
  have h := invitation_emails_lowercased_compared_exactly stA 10 30 20 1
    "X@Y.com" .contributor 50 5 6 7 99 77 true "Bob@x.com"
    ⟨1, 1, "bob@x.com", .contributor, 10, 77, 100, none⟩ (by decide) (by decide)
  exact ⟨h.2.1, h.2.2⟩

/-- Witness for claim C10 at a concrete state: re-inviting "acc@x.com", whose
slot holds an accepted invitation, fails and creates no new row. -/
theorem invite_conflict_on_accepted_witness :
    (handleInviteUser stB 10 1 "acc@x.com" .contributor 5 9 99 true).1 =
      .insertFailed ∧
    ∀ i ∈ (handleInviteUser stB 10 1 "acc@x.com" .contributor 5 9 99
        true).2.project_invitations,
      i ∈ stB.project_invitations := by
  have h := invite_conflict_on_accepted stB 10 1 "acc@x.com" .contributor 5 9
    99 true ⟨2, 1, "acc@x.com", .contributor, 10, 78, 100, some 3⟩
    (by decide) (by decide) (by decide) (by decide) (by decide)
  exact h


end BugBlazer
